import Mathlib

/-!
Verification development for the play.core per-cell animation runner
(TypeScript sources: `src/index.ts`, `src/modules/buffer.ts`).

Shallow embedding conventions:
* JS arrays become `List`; in-place mutation becomes functions returning the
  updated list.
* JS numbers used for time are embedded as `ℚ` (the source only adds,
  subtracts, divides and takes `%` of them); pixel/row counts are `Int`/`Nat`.
* A JS value that may be `undefined`/`null` is an `Option`; an object field
  that may be absent is likewise an `Option` (with an explicit note where the
  absent/undefined distinction is conflated and why it does not matter).
-/

namespace PlayCore

/-! ## Buffer module (`src/modules/buffer.ts`)

Cells travelling through the buffer helpers are either a plain object
(`char`, `color`, `backgroundColor`, `fontWeight` fields, each possibly
absent), a bare string, or `undefined` (a hole in the JS array). -/

/-- Object value carried in a buffer slot: the cell-shaped objects used by
`buffer.ts` have at most the fields `char`, `color`, `backgroundColor`,
`fontWeight`. `none` models an absent field. (An explicitly
`undefined`-valued field is conflated with an absent one; no helper in
`buffer.ts` distinguishes the two.) -/
structure Obj where
  char : Option String
  color : Option String
  backgroundColor : Option String
  fontWeight : Option String
deriving DecidableEq, Repr

/-- Empty JS object `{}`. -/
def Obj.empty : Obj := ⟨none, none, none, none⟩

/-- Value stored in one slot of a buffer array: a cell-shaped object, a bare
string, or `undefined` (array hole / out-of-length read). -/
inductive BVal where
  | obj (o : Obj)
  | str (s : String)
  | undef
deriving DecidableEq, Repr

/-- Field-level behaviour of `Object.assign` / object spread: a field present
on the second argument wins, otherwise the first argument's field survives. -/
def orField (a b : Option String) : Option String :=
  match a with
  | some v => some v
  | none => b

/-- Semantics of `Object.assign(cell, val)` in `merge`: every field present on
`val` overwrites the corresponding field of `cell`; absent fields of `val`
leave `cell`'s fields in place. -/
def assignObj (cell val : Obj) : Obj :=
  ⟨orField val.char cell.char,
   orField val.color cell.color,
   orField val.backgroundColor cell.backgroundColor,
   orField val.fontWeight cell.fontWeight⟩

/-- Embedding of `get(x, y, target, targetCols, targetRows)` from
`buffer.ts`: out-of-bounds coordinates return the empty object `{}` (the
function is total, so it can never throw); in bounds it returns
`target[x + y*targetCols]`, which in JS is `undefined` when the index is
past the array's length. -/
def get (x y : Int) (target : List BVal) (targetCols targetRows : Int) : BVal :=
  if x < 0 ∨ targetCols ≤ x then .obj Obj.empty
  else if y < 0 ∨ targetRows ≤ y then .obj Obj.empty
  else ((target.get? (x + y * targetCols).toNat).getD .undef)

/-- Embedding of `set(val, x, y, target, targetCols = 0, targetRows = 0)`:
out of bounds is a no-op, otherwise the slot is overwritten with `val`
as-is. The `targetCols`/`targetRows` defaults of `0` are the source's
default parameter values. -/
def set (val : BVal) (x y : Int) (target : List BVal)
    (targetCols : Int := 0) (targetRows : Int := 0) : List BVal :=
  if x < 0 ∨ targetCols ≤ x then target
  else if y < 0 ∨ targetRows ≤ y then target
  else target.set (x + y * targetCols).toNat val

/-- Embedding of `merge(val, x, y, target, targetCols?, targetRows?)`: the
source reads the optional dimensions as `targetCols || 0`, so an omitted
argument behaves as `0` (modelled by the default value). In bounds, the
existing slot is flattened — an object is kept, anything else `v` becomes
`{char: v}` — and then `val`'s fields are assigned over it. -/
def merge (val : Obj) (x y : Int) (target : List BVal)
    (targetCols : Int := 0) (targetRows : Int := 0) : List BVal :=
  if x < 0 ∨ targetCols ≤ x then target
  else if y < 0 ∨ targetRows ≤ y then target
  else
    let i := (x + y * targetCols).toNat
    let cell : Obj :=
      match (target.get? i).getD .undef with
      | .obj o => o
      | .str s => ⟨some s, none, none, none⟩
      | .undef => ⟨none, none, none, none⟩
    target.set i (.obj (assignObj cell val))

/-- Integer range `[a, b)` as a list, for the `for (let j = y; j < y + h; j++)`
loops of `setRect`/`mergeRect`. -/
def intRange (a b : Int) : List Int :=
  (List.range (b - a).toNat).map (fun k => a + (k : Int))

/-- Embedding of `setRect`: applies `set` to every cell of the rectangle;
each individual out-of-bounds cell is skipped by `set` itself. -/
def setRect (val : BVal) (x y w h : Int) (target : List BVal)
    (targetCols : Int := 0) (targetRows : Int := 0) : List BVal :=
  (intRange y (y + h)).foldl
    (fun acc j =>
      (intRange x (x + w)).foldl
        (fun acc2 i => set val i j acc2 targetCols targetRows) acc)
    target

/-- Embedding of `mergeRect`: applies `merge` to every cell of the rectangle. -/
def mergeRect (val : Obj) (x y w h : Int) (target : List BVal)
    (targetCols : Int := 0) (targetRows : Int := 0) : List BVal :=
  (intRange y (y + h)).foldl
    (fun acc j =>
      (intRange x (x + w)).foldl
        (fun acc2 i => merge val i j acc2 targetCols targetRows) acc)
    target

/-- Argument of `mergeText`: either a bare string, or an object carrying a
`text` field plus extra style fields (the source copies the object and
deletes `text`, leaving the style fields as the merge object). -/
inductive TextArg where
  | str (s : String)
  | obj (text : String) (styles : Obj)
deriving DecidableEq, Repr

/-- Merge value built for one character in `mergeText`: the source writes
`{ char, ...mergeObj }`, so fields of the merge object override `char`. -/
def charMergeVal (ch : Char) (mergeObj : Obj) : Obj :=
  assignObj ⟨some (String.singleton ch), none, none, none⟩ mergeObj

/-- One `wrapInfo` entry of `mergeText`: first/last cell values of a line,
read back after the merge. -/
structure WrapEntry where
  first : BVal
  last : BVal
deriving DecidableEq, Repr

/-- Return value of `mergeText` together with the mutated buffer: the
source returns `{ offset: {col, row}, wrapInfo }` and mutates `target` in
place; the embedding returns the updated buffer as a field. -/
structure MergeTextOut where
  offsetCol : Int
  offsetRow : Int
  wrapInfo : List WrapEntry
  target : List BVal
deriving DecidableEq, Repr

/-- Splitting a character list at newline characters, by structural
recursion (so that the kernel can evaluate concrete examples). On the
underlying character data this is exactly JS `text.split("\n")`: an empty
text gives one empty piece, a trailing newline gives a trailing empty
piece. -/
def splitCharList : List Char → List (List Char)
  | [] => [[]]
  | c :: rest =>
    let r := splitCharList rest
    if c = '\n' then [] :: r
    else
      match r with
      | [] => [[c]]
      | h :: t => (c :: h) :: t

/-- JS `text.split("\n")` over Lean strings. -/
def jsSplitNewline (s : String) : List String :=
  (splitCharList s.toList).map fun cs => ⟨cs⟩

/-- Inner character loop of `mergeText` for one line: the source does
`line.split('').forEach((char, charNum) => { col = x + charNum; merge(...) })`,
carrying the running `col` across lines (an empty line leaves `col`
untouched). -/
def mergeTextLine (x : Int) (mergeObj : Obj) (targetCols targetRows : Int)
    (row : Int) (st : Int × List BVal) (line : String) : Int × List BVal :=
  line.toList.enum.foldl
    (fun acc p =>
      let col := x + (p.1 : Int)
      (col, merge (charMergeVal p.2 mergeObj) col row acc.2 targetCols targetRows))
    st

/-- Embedding of `mergeText(textObj, x, y, target, targetCols = 0,
targetRows = 0)`: splits the text on line breaks, merges one character per
column starting at `x`, incrementing the row per line, records first/last
cell per line, and finally clamps `row` back with `Math.max(y, row - 1)`. -/
def mergeText (textObj : TextArg) (x y : Int) (target : List BVal)
    (targetCols : Int := 0) (targetRows : Int := 0) : MergeTextOut :=
  let text := match textObj with
    | .str s => s
    | .obj t _ => t
  let mergeObj := match textObj with
    | .str _ => Obj.empty
    | .obj _ o => o
  let fin := (jsSplitNewline text).foldl
    (fun (acc : Int × Int × List BVal × List WrapEntry) line =>
      let col := acc.1
      let row := acc.2.1
      let tgt := acc.2.2.1
      let wrap := acc.2.2.2
      let step := mergeTextLine x mergeObj targetCols targetRows row (col, tgt) line
      let first := get x row step.2 targetCols targetRows
      let last := get (x + (line.length : Int) - 1) row step.2 targetCols targetRows
      (step.1, row + 1, step.2, wrap ++ [⟨first, last⟩]))
    (x, y, target, [])
  { offsetCol := fin.1
    offsetRow := max y (fin.2.1 - 1)
    wrapInfo := fin.2.2.2
    target := fin.2.2.1 }

/-! ## Lemmas about the buffer helpers -/

/-- A fold whose step never changes the accumulator is the identity. -/
theorem foldl_fixed {α β : Type} (f : β → α → β) (l : List α) (init : β)
    (h : ∀ acc a, f acc a = acc) : l.foldl f init = init := by
  induction l generalizing init with
  | nil => rfl
  | cons a t ih => simp only [List.foldl_cons, h]; exact ih init

/-- Overwriting with an absent field keeps the existing field. -/
theorem orField_none (a : Option String) : orField a none = a := by
  cases a <;> rfl

/-- C5: for every buffer and coordinate (x,y) outside [0,cols)×[0,rows),
`get` returns an empty object (totality of the embedded function realizes
"never throws"); and for an in-bounds coordinate on a buffer satisfying the
data-model invariant (length cols*rows, slots holding cells, not holes),
`get` never returns `undefined`. -/
theorem get_out_of_bounds_safe (x y : Int) (target : List BVal)
    (targetCols targetRows : Int) :
    (¬ (0 ≤ x ∧ x < targetCols ∧ 0 ≤ y ∧ y < targetRows) →
      get x y target targetCols targetRows = .obj Obj.empty) ∧
    (0 ≤ x → x < targetCols → 0 ≤ y → y < targetRows →
      target.length = (targetCols * targetRows).toNat →
      (∀ v ∈ target, v ≠ .undef) →
      get x y target targetCols targetRows ≠ .undef) := by
  constructor
  · intro h
    unfold get
    by_cases h1 : x < 0 ∨ targetCols ≤ x
    · rw [if_pos h1]
    · rw [if_neg h1, if_pos (by omega)]
  · intro hx hxc hy hyr hlen hmem
    unfold get
    rw [if_neg (by omega), if_neg (by omega)]
    have hlt : x + y * targetCols < targetCols * targetRows := by
      have h1 : x + y * targetCols < y * targetCols + targetCols := by linarith
      have h2 : y * targetCols + targetCols = (y + 1) * targetCols := by ring
      have h3 : (y + 1) * targetCols ≤ targetRows * targetCols :=
        mul_le_mul_of_nonneg_right (by omega) (by omega)
      have h4 : targetRows * targetCols = targetCols * targetRows := by ring
      linarith
    have hpos : (0 : Int) ≤ x + y * targetCols := by
      have hc : (0 : Int) ≤ y * targetCols :=
        mul_nonneg hy (by omega)
      linarith
    have hidx : (x + y * targetCols).toNat < target.length := by
      rw [hlen]
      exact (Int.toNat_lt_toNat (lt_of_le_of_lt hpos hlt)).mpr hlt
    rw [List.get?_eq_get hidx, Option.getD_some]
    exact hmem _ (target.get_mem _ _)

/-- C5 witness: the out-of-bounds read (5,0) on a 3×1 buffer yields the
empty object, and the in-bounds read (1,0) is not `undefined`. -/
theorem get_out_of_bounds_safe_holds :
    get 5 0 [BVal.str "a", BVal.str "b", BVal.str "c"] 3 1 = .obj Obj.empty ∧
    get 1 0 [BVal.str "a", BVal.str "b", BVal.str "c"] 3 1 ≠ .undef :=
  ⟨(get_out_of_bounds_safe 5 0 [BVal.str "a", BVal.str "b", BVal.str "c"] 3 1).1
      (by decide),
   (get_out_of_bounds_safe 1 0 [BVal.str "a", BVal.str "b", BVal.str "c"] 3 1).2
      (by decide) (by decide) (by decide) (by decide) (by decide) (by decide)⟩

/-- C6: `merge` on a bare-character slot flattens it to a cell whose `char`
is that character and then overwrites only the fields present in the merge
argument (so the character survives unless the argument carries `char`);
`set` fully replaces the slot with the given value as-is; both are silent
no-ops out of bounds. -/
theorem merge_set_slot_semantics (val : Obj) (sval : BVal) (s : String)
    (x y : Int) (target : List BVal) (targetCols targetRows : Int) :
    (0 ≤ x → x < targetCols → 0 ≤ y → y < targetRows →
      target.get? (x + y * targetCols).toNat = some (.str s) →
      (merge val x y target targetCols targetRows).get? (x + y * targetCols).toNat
        = some (.obj ⟨orField val.char (some s), val.color,
                      val.backgroundColor, val.fontWeight⟩)) ∧
    (0 ≤ x → x < targetCols → 0 ≤ y → y < targetRows →
      (x + y * targetCols).toNat < target.length →
      (set sval x y target targetCols targetRows).get? (x + y * targetCols).toNat
        = some sval) ∧
    (¬ (0 ≤ x ∧ x < targetCols ∧ 0 ≤ y ∧ y < targetRows) →
      set sval x y target targetCols targetRows = target ∧
      merge val x y target targetCols targetRows = target) := by
  refine ⟨?_, ?_, ?_⟩
  · intro hx hxc hy hyr hslot
    have hidx : (x + y * targetCols).toNat < target.length :=
      List.get?_eq_some.mp hslot |>.choose
    unfold merge
    rw [if_neg (by omega), if_neg (by omega)]
    simp only [hslot, Option.getD_some]
    rw [List.get?_set_eq_of_lt _ (by simpa using hidx)]
    simp [assignObj, orField_none]
  · intro hx hxc hy hyr hidx
    unfold set
    rw [if_neg (by omega), if_neg (by omega)]
    rw [List.get?_set_eq_of_lt _ (by simpa using hidx)]
  · intro h
    constructor
    · unfold set
      by_cases h1 : x < 0 ∨ targetCols ≤ x
      · rw [if_pos h1]
      · rw [if_neg h1, if_pos (by omega)]
    · unfold merge
      by_cases h1 : x < 0 ∨ targetCols ≤ x
      · rw [if_pos h1]
      · rw [if_neg h1, if_pos (by omega)]

/-- C6 witness: a style merge onto the bare-character slot "w" at (1,0) of a
2×1 buffer keeps the character and gains the color; a set at (0,0) replaces
the slot with a bare string; both are no-ops at (5,0). -/
theorem merge_set_slot_semantics_holds :
    (merge ⟨none, some "red", none, none⟩ 1 0
        [BVal.obj Obj.empty, BVal.str "w"] 2 1).get? 1
      = some (.obj ⟨some "w", some "red", none, none⟩) ∧
    (set (BVal.str "z") 0 0 [BVal.obj Obj.empty, BVal.str "w"] 2 1).get? 0
      = some (.str "z") ∧
    (set (BVal.str "z") 5 0 [BVal.obj Obj.empty, BVal.str "w"] 2 1
        = [BVal.obj Obj.empty, BVal.str "w"] ∧
      merge ⟨none, some "red", none, none⟩ 5 0
          [BVal.obj Obj.empty, BVal.str "w"] 2 1
        = [BVal.obj Obj.empty, BVal.str "w"]) :=
  ⟨(merge_set_slot_semantics ⟨none, some "red", none, none⟩ (BVal.str "z") "w"
      1 0 [BVal.obj Obj.empty, BVal.str "w"] 2 1).1
        (by decide) (by decide) (by decide) (by decide) (by decide),
   (merge_set_slot_semantics ⟨none, some "red", none, none⟩ (BVal.str "z") "w"
      0 0 [BVal.obj Obj.empty, BVal.str "w"] 2 1).2.1
        (by decide) (by decide) (by decide) (by decide) (by decide),
   (merge_set_slot_semantics ⟨none, some "red", none, none⟩ (BVal.str "z") "w"
      5 0 [BVal.obj Obj.empty, BVal.str "w"] 2 1).2.2 (by decide)⟩

/-- C7: `mergeText "ab\ncd"` at (0,0) on a 2×2 buffer merges "a","b","c","d"
into cells (0,0),(1,0),(0,1),(1,1) and returns offset {col:1, row:1}, the
coordinates of the last character written. -/
theorem mergeText_two_by_two :
    mergeText (.str "ab\ncd") 0 0
        (List.replicate 4 (BVal.obj ⟨some " ", none, none, none⟩)) 2 2
      = { offsetCol := 1
          offsetRow := 1
          wrapInfo := [⟨.obj ⟨some "a", none, none, none⟩,
                        .obj ⟨some "b", none, none, none⟩⟩,
                       ⟨.obj ⟨some "c", none, none, none⟩,
                        .obj ⟨some "d", none, none, none⟩⟩]
          target := [.obj ⟨some "a", none, none, none⟩,
                     .obj ⟨some "b", none, none, none⟩,
                     .obj ⟨some "c", none, none, none⟩,
                     .obj ⟨some "d", none, none, none⟩] } := by
  rfl

/-- C10: `set` and `merge` called without the trailing dimension arguments
(which default to 0) classify every coordinate as out of bounds and leave
the buffer unchanged; hence `setRect` and `mergeRect` without dimensions
are complete no-ops. -/
theorem default_dims_noop :
    (∀ (val : BVal) (x y : Int) (target : List BVal),
        set val x y target = target) ∧
    (∀ (val : Obj) (x y : Int) (target : List BVal),
        merge val x y target = target) ∧
    (∀ (val : BVal) (x y w h : Int) (target : List BVal),
        setRect val x y w h target = target) ∧
    (∀ (val : Obj) (x y w h : Int) (target : List BVal),
        mergeRect val x y w h target = target) := by
  have hs : ∀ (val : BVal) (x y : Int) (target : List BVal),
      set val x y target = target := by
    intro val x y target
    unfold set
    rw [if_pos (by omega : x < 0 ∨ (0 : Int) ≤ x)]
  have hm : ∀ (val : Obj) (x y : Int) (target : List BVal),
      merge val x y target = target := by
    intro val x y target
    unfold merge
    rw [if_pos (by omega : x < 0 ∨ (0 : Int) ≤ x)]
  refine ⟨hs, hm, ?_, ?_⟩
  · intro val x y w h target
    unfold setRect
    exact foldl_fixed _ _ _ fun acc j => foldl_fixed _ _ _ fun acc2 i => hs val i j acc2
  · intro val x y w h target
    unfold mergeRect
    exact foldl_fixed _ _ _ fun acc j => foldl_fixed _ _ _ fun acc2 i => hm val i j acc2

/-! ## Runner core (`src/index.ts`)

The render loop is embedded as a state-transition function: one call of
`loopStep` is one invocation of `loop(t)` on an animation-frame signal.
JS in-place mutation of `state`, `buffer`, `timeSample`, `cols`/`rows`
becomes explicit state passing through `LoopState`. Parts of the loop that
no claim touches and that only read browser state are elided: the FPS
tracker update, the cursor derivation from the pointer, the renderer call
and the event-queue drain (they do not write any field that the claims
mention). Program phases are embedded as optional buffer transformers
receiving the context snapshot; the cursor and `userData` arguments the
source also passes are absorbed into the function closures, since no claim
constrains them. -/

/-- Partial cell object returned by `program.main`: the outer `Option` is
presence of the field on the returned object (object spread only copies
present fields); the inner `Option` is the field's value, `none` standing
for `undefined`/`null`. Inner style values are conflated to their string
payload. -/
structure PCell where
  char : Option (Option String)
  color : Option (Option String)
  backgroundColor : Option (Option String)
  fontWeight : Option (Option String)
deriving DecidableEq, Repr

/-- Result of one `program.main` call: the source tests
`typeof out == "object" && out !== null`; anything else (a bare character
string, `undefined`, or `null`) is treated as a character value, embedded
as `prim` with `none` for `undefined`/`null`. -/
inductive MainOut where
  | obj (p : PCell)
  | prim (c : Option String)
deriving Repr

/-- Spread semantics of `buffer[idx] = { ...buffer[idx], ...out }`: a field
present on `out` overwrites, an absent field keeps the old cell's value. -/
def spreadCell (old : Obj) (p : PCell) : Obj :=
  ⟨p.char.getD old.char,
   p.color.getD old.color,
   p.backgroundColor.getD old.backgroundColor,
   p.fontWeight.getD old.fontWeight⟩

/-- Per-cell result handling of the main loop (`index.ts` lines 258-266):
an object result is spread over the existing cell, any other result
overwrites only `char`; afterwards an `undefined`/`null` `char` is forced
to a single space (`EMPTY_CELL`). -/
def applyMainResult (old : Obj) (out : MainOut) : Obj :=
  let m := match out with
    | .obj p => spreadCell old p
    | .prim c => { old with char := c }
  if m.char = none then { m with char := some " " } else m

/-- Snapshot context fields the claims constrain; the source's full context
also carries metrics, pixel width/height, settings and runtime stats, all
read-only copies of values that no claim mentions. -/
structure Ctx where
  frame : Nat
  time : ℚ
  cols : Nat
  rows : Nat
deriving DecidableEq, Repr

/-- The runner's `state` object: `{time, frame, cycle, fps}`, the record
persisted to local storage on every accepted tick. -/
structure RunState where
  time : ℚ
  frame : Nat
  cycle : Nat
  fps : ℚ
deriving DecidableEq, Repr

/-- Embedding of `getContext`'s `frame`/`time` fields: both are read from
the current `state` object at the moment of the call. -/
def mkContext (st : RunState) (cols rows : Nat) : Ctx :=
  ⟨st.frame, st.time, cols, rows⟩

/-- Coordinate object handed to `program.main`: `{x: i, y: j, index: idx}`
with `idx = i + j*cols`. -/
structure Coord where
  x : Nat
  y : Nat
  index : Nat
deriving DecidableEq, Repr

/-- Visit order of the per-cell pass: `j` over rows outside, `i` over
columns inside, `idx = i + j*cols` (row-major). -/
def coordList (cols rows : Nat) : List Coord :=
  ((List.range rows).map fun j =>
    (List.range cols).map fun i => Coord.mk i j (i + j * cols)).join

/-- One iteration of the per-cell pass: call `main` with the coordinate,
the context and the current buffer, then store the handled result back
into slot `idx`. -/
def mainCellStep (main : Coord → Ctx → List Obj → MainOut) (ctx : Ctx)
    (buf : List Obj) (c : Coord) : List Obj :=
  buf.set c.index (applyMainResult (buf.getD c.index Obj.empty) (main c ctx buf))

/-- The whole per-cell pass of one tick, in row-major order. -/
def mainPass (main : Coord → Ctx → List Obj → MainOut) (ctx : Ctx)
    (buf : List Obj) : List Obj :=
  (coordList ctx.cols ctx.rows).foldl (mainCellStep main ctx) buf

/-- Optional `pre`/`post` phase: skipped when the program does not define
it (`typeof program.pre == "function"`). -/
def runPhase (f : Option (Ctx → List Obj → List Obj)) (ctx : Ctx)
    (buf : List Obj) : List Obj :=
  match f with
  | some g => g ctx buf
  | none => buf

/-- Optional `main` phase. -/
def runMain (f : Option (Coord → Ctx → List Obj → MainOut)) (ctx : Ctx)
    (buf : List Obj) : List Obj :=
  match f with
  | some g => mainPass g ctx buf
  | none => buf

/-- Style fields of `DEFAULT_CELL_STYLE`, copied from the caller settings
(`color`, `backgroundColor`, `fontWeight`; absent when the caller set
none). -/
structure StyleSettings where
  color : Option String
  backgroundColor : Option String
  fontWeight : Option String
deriving DecidableEq, Repr

/-- A freshly (re)allocated cell: `{ ...DEFAULT_CELL_STYLE, char: EMPTY_CELL }`
with `EMPTY_CELL = " "`. -/
def defaultCellOf (st : StyleSettings) : Obj :=
  ⟨some " ", st.color, st.backgroundColor, st.fontWeight⟩

/-- The program object: optional `pre`, `main` and `post` phases (the
optional `boot` and event handlers write no state a claim mentions). -/
structure ProgramM where
  pre : Option (Ctx → List Obj → List Obj)
  main : Option (Coord → Ctx → List Obj → MainOut)
  post : Option (Ctx → List Obj → List Obj)

/-- Per-run constants of the loop: the throttle interval
(`1000 / settings.fps`), the initial time offset (`state.time` at boot),
the default cell style, the grid dimensions the context reports for the
tick, and the program. `cols`/`rows` are per-tick inputs in the source
(measured from the surface inside `getContext`); the claims quantify over
them, so they sit in the configuration of the step under scrutiny. -/
structure LoopCfg where
  interval : ℚ
  timeOffset : ℚ
  style : StyleSettings
  cols : Nat
  rows : Nat
  program : ProgramM

/-- Mutable state threaded through `loop`: `timeSample`, the `state`
record, the `cols`/`rows` trackers (absent before the first accepted
tick), the buffer, and the last record written to local storage. -/
structure LoopState where
  timeSample : ℚ
  state : RunState
  dims : Option (Nat × Nat)
  buffer : List Obj
  stored : Option RunState
deriving DecidableEq, Repr

/-- JS `%` on the loop's (nonnegative) time values: remainder with the
quotient rounded toward minus infinity, which for the positive operands of
`delta % interval` coincides with JS's truncated remainder. -/
def jsMod (a b : ℚ) : ℚ :=
  a - b * ⌊a / b⌋

/-- Resize step of the loop (`index.ts` lines 227-234): when the tracked
dimensions differ from the context's (including the very first tick), the
buffer is reallocated to `cols*rows` default cells; otherwise both are
kept. -/
def resizeBuffer (cfg : LoopCfg) (ls : LoopState) : Option (Nat × Nat) × List Obj :=
  if ls.dims = some (cfg.cols, cfg.rows) then (ls.dims, ls.buffer)
  else (some (cfg.cols, cfg.rows),
        List.replicate (cfg.cols * cfg.rows) (defaultCellOf cfg.style))

/-- One invocation of `loop(t)`: skip the signal outright when
`delta < interval`; otherwise snapshot the context from the current state,
advance `timeSample`/`state`, persist the state record, renormalize the
buffer on resize, and run the `pre`, per-cell `main`, and `post` phases in
that order. -/
def loopStep (cfg : LoopCfg) (ls : LoopState) (t : ℚ) : LoopState :=
  let delta := t - ls.timeSample
  if delta < cfg.interval then ls
  else
    let ctx := mkContext ls.state cfg.cols cfg.rows
    let timeSample2 := t - jsMod delta cfg.interval
    let state2 : RunState :=
      { ls.state with time := t + cfg.timeOffset, frame := ls.state.frame + 1 }
    let resized := resizeBuffer cfg ls
    let b1 := runPhase cfg.program.pre ctx resized.2
    let b2 := runMain cfg.program.main ctx b1
    let b3 := runPhase cfg.program.post ctx b2
    { timeSample := timeSample2
      state := state2
      dims := resized.1
      buffer := b3
      stored := some state2 }

/-- A whole run of animation-frame signals. -/
def runLoop (cfg : LoopCfg) (ls : LoopState) (ts : List ℚ) : LoopState :=
  ts.foldl (loopStep cfg) ls

/-! ## Lemmas about the loop -/

/-- For a positive divisor, the JS remainder lies in `[0, b)`. -/
theorem jsMod_bounds (a b : ℚ) (hb : 0 < b) : 0 ≤ jsMod a b ∧ jsMod a b < b := by
  have hb0 : b ≠ 0 := ne_of_gt hb
  have hf : jsMod a b = b * Int.fract (a / b) := by
    unfold jsMod Int.fract
    rw [mul_sub]
    congr 1
    field_simp
  constructor
  · rw [hf]
    exact mul_nonneg hb.le (Int.fract_nonneg _)
  · rw [hf]
    calc b * Int.fract (a / b) < b * 1 :=
          (mul_lt_mul_left hb).mpr (Int.fract_lt_one _)
    _ = b := mul_one b

/-- A signal with `delta < interval` is dropped with the whole loop state
untouched. -/
theorem loopStep_skip (cfg : LoopCfg) (ls : LoopState) (t : ℚ)
    (h : t - ls.timeSample < cfg.interval) : loopStep cfg ls t = ls := by
  unfold loopStep
  rw [if_pos h]

/-- Explicit form of an accepted tick. -/
theorem loopStep_accept (cfg : LoopCfg) (ls : LoopState) (t : ℚ)
    (h : cfg.interval ≤ t - ls.timeSample) :
    loopStep cfg ls t =
      { timeSample := t - jsMod (t - ls.timeSample) cfg.interval
        state := { ls.state with
                   time := t + cfg.timeOffset
                   frame := ls.state.frame + 1 }
        dims := (resizeBuffer cfg ls).1
        buffer := runPhase cfg.program.post (mkContext ls.state cfg.cols cfg.rows)
                    (runMain cfg.program.main (mkContext ls.state cfg.cols cfg.rows)
                      (runPhase cfg.program.pre (mkContext ls.state cfg.cols cfg.rows)
                        (resizeBuffer cfg ls).2))
        stored := some { ls.state with
                         time := t + cfg.timeOffset
                         frame := ls.state.frame + 1 } } := by
  unfold loopStep
  rw [if_neg (not_lt.mpr h)]

/-- The frame counter observes acceptance: it grows by one exactly on an
accepted tick. -/
theorem loopStep_frame (cfg : LoopCfg) (ls : LoopState) (t : ℚ) :
    (loopStep cfg ls t).state.frame =
      if cfg.interval ≤ t - ls.timeSample then ls.state.frame + 1
      else ls.state.frame := by
  by_cases h : cfg.interval ≤ t - ls.timeSample
  · rw [if_pos h, loopStep_accept cfg ls t h]
  · rw [if_neg h, loopStep_skip cfg ls t (lt_of_not_le h)]

/-- On an accepted tick the sample time advances by at least one interval
and lands in the half-open window `(t - interval, t]`. -/
theorem loopStep_sample_advance (cfg : LoopCfg) (ls : LoopState) (t : ℚ)
    (hI : 0 < cfg.interval) (h : cfg.interval ≤ t - ls.timeSample) :
    ls.timeSample + cfg.interval ≤ (loopStep cfg ls t).timeSample ∧
    t - cfg.interval < (loopStep cfg ls t).timeSample ∧
    (loopStep cfg ls t).timeSample ≤ t := by
  rw [loopStep_accept cfg ls t h]
  dsimp only
  have hmb := jsMod_bounds (t - ls.timeSample) cfg.interval hI
  refine ⟨?_, by linarith [hmb.2], by linarith [hmb.1]⟩
  have hfl : (1 : ℤ) ≤ ⌊(t - ls.timeSample) / cfg.interval⌋ := by
    rw [Int.le_floor]
    push_cast
    rw [le_div_iff hI]
    linarith
  have hfl2 : cfg.interval * 1 ≤ cfg.interval * (⌊(t - ls.timeSample) / cfg.interval⌋ : ℚ) := by
    apply mul_le_mul_of_nonneg_left _ hI.le
    exact_mod_cast hfl
  unfold jsMod
  have : t - (t - ls.timeSample - cfg.interval * ⌊(t - ls.timeSample) / cfg.interval⌋)
      = ls.timeSample + cfg.interval * ⌊(t - ls.timeSample) / cfg.interval⌋ := by ring
  rw [this]
  linarith

/-- Over any sequence of signals, each accepted tick pushes the stored
sample time forward by at least one interval: `N` accepted ticks advance it
by at least `N * interval`. -/
theorem runLoop_rate_bound (cfg : LoopCfg) (hI : 0 < cfg.interval) :
    ∀ (ts : List ℚ) (ls : LoopState),
      ls.state.frame ≤ (runLoop cfg ls ts).state.frame ∧
      ls.timeSample +
          (((runLoop cfg ls ts).state.frame - ls.state.frame : ℕ) : ℚ) * cfg.interval
        ≤ (runLoop cfg ls ts).timeSample := by
  intro ts
  induction ts with
  | nil =>
    intro ls
    refine ⟨le_refl _, ?_⟩
    simp [runLoop]
  | cons t ts ih =>
    intro ls
    have hstep : runLoop cfg ls (t :: ts) = runLoop cfg (loopStep cfg ls t) ts := rfl
    by_cases h : cfg.interval ≤ t - ls.timeSample
    · have hadv := loopStep_sample_advance cfg ls t hI h
      have hfr : (loopStep cfg ls t).state.frame = ls.state.frame + 1 := by
        rw [loopStep_frame, if_pos h]
      obtain ⟨ih1, ih2⟩ := ih (loopStep cfg ls t)
      rw [hfr] at ih1 ih2
      rw [hstep]
      constructor
      · omega
      · have hn : ((runLoop cfg (loopStep cfg ls t) ts).state.frame - ls.state.frame : ℕ)
            = ((runLoop cfg (loopStep cfg ls t) ts).state.frame
                - (ls.state.frame + 1) : ℕ) + 1 := by
          omega
        rw [hn]
        push_cast
        nlinarith [hadv.1, ih2]
    · have hsk : loopStep cfg ls t = ls := loopStep_skip cfg ls t (lt_of_not_le h)
      rw [hstep, hsk]
      exact ih ls

/-- C2: with `targetInterval = 1000/fps`, a signal is accepted exactly when
the delta since the stored sample time is at least the interval; a skipped
signal leaves the whole loop state untouched (so no phase runs); an
accepted tick advances the sample time to `now - (delta mod interval)`,
which carries the remainder over (it lands in `(now - interval, now]` and
is at least one interval past the previous sample), and over any signal
sequence `N` accepted ticks advance the sample time by at least
`N * interval`, bounding the long-run average rate by `fps`. -/
theorem throttle_fixed_interval (cfg : LoopCfg) (hI : 0 < cfg.interval) :
    (∀ (ls : LoopState) (t : ℚ),
        ((loopStep cfg ls t).state.frame = ls.state.frame + 1 ↔
          cfg.interval ≤ t - ls.timeSample)) ∧
    (∀ (ls : LoopState) (t : ℚ),
        t - ls.timeSample < cfg.interval → loopStep cfg ls t = ls) ∧
    (∀ (ls : LoopState) (t : ℚ), cfg.interval ≤ t - ls.timeSample →
        (loopStep cfg ls t).timeSample = t - jsMod (t - ls.timeSample) cfg.interval ∧
        ls.timeSample + cfg.interval ≤ (loopStep cfg ls t).timeSample ∧
        t - cfg.interval < (loopStep cfg ls t).timeSample ∧
        (loopStep cfg ls t).timeSample ≤ t) ∧
    (∀ (ls : LoopState) (ts : List ℚ),
        ls.timeSample +
            (((runLoop cfg ls ts).state.frame - ls.state.frame : ℕ) : ℚ) * cfg.interval
          ≤ (runLoop cfg ls ts).timeSample) := by
  refine ⟨?_, ?_, ?_, ?_⟩
  · intro ls t
    rw [loopStep_frame]
    by_cases h : cfg.interval ≤ t - ls.timeSample
    · simp [h]
    · simp [h]
  · intro ls t h
    exact loopStep_skip cfg ls t h
  · intro ls t h
    have hadv := loopStep_sample_advance cfg ls t hI h
    refine ⟨?_, hadv.1, hadv.2.1, hadv.2.2⟩
    rw [loopStep_accept cfg ls t h]
  · intro ls ts
    exact (runLoop_rate_bound cfg hI ts ls).2

/-- C3: on a tick whose grid dimensions differ from the previous tick's
(including the very first one), the reallocated buffer has exactly
`cols*rows` entries, every one of them the default-style cell with a
single-space character, and the `pre` phase of the same tick already
receives that reallocated buffer (resize strictly precedes it). -/
theorem resize_renormalizes (cfg : LoopCfg) (ls : LoopState) (t : ℚ)
    (haccept : cfg.interval ≤ t - ls.timeSample)
    (hchanged : ls.dims ≠ some (cfg.cols, cfg.rows)) :
    (resizeBuffer cfg ls).2.length = cfg.cols * cfg.rows ∧
    (∀ c ∈ (resizeBuffer cfg ls).2, c = defaultCellOf cfg.style) ∧
    defaultCellOf cfg.style =
      ⟨some " ", cfg.style.color, cfg.style.backgroundColor, cfg.style.fontWeight⟩ ∧
    (loopStep cfg ls t).buffer =
      runPhase cfg.program.post (mkContext ls.state cfg.cols cfg.rows)
        (runMain cfg.program.main (mkContext ls.state cfg.cols cfg.rows)
          (runPhase cfg.program.pre (mkContext ls.state cfg.cols cfg.rows)
            (List.replicate (cfg.cols * cfg.rows) (defaultCellOf cfg.style)))) := by
  have hres : resizeBuffer cfg ls =
      (some (cfg.cols, cfg.rows),
       List.replicate (cfg.cols * cfg.rows) (defaultCellOf cfg.style)) := by
    unfold resizeBuffer
    rw [if_neg hchanged]
  refine ⟨?_, ?_, rfl, ?_⟩
  · rw [hres]
    exact List.length_replicate _ _
  · rw [hres]
    intro c hc
    exact List.eq_of_mem_replicate hc
  · rw [loopStep_accept cfg ls t haccept, hres]

/-- A program defining no phase at all, for concrete loop runs. -/
def emptyProgram : ProgramM := ⟨none, none, none⟩

/-- A concrete loop configuration: 10 ms interval, no time offset, no
caller styles, 2×2 grid, no program phases. -/
def rCfg : LoopCfg :=
  { interval := 10
    timeOffset := 0
    style := ⟨none, none, none⟩
    cols := 2
    rows := 2
    program := emptyProgram }

/-- A concrete boot state: sample time 0, zeroed state record, no tracked
dimensions, empty buffer, nothing stored. -/
def rLs : LoopState :=
  { timeSample := 0
    state := ⟨0, 0, 0, 30⟩
    dims := none
    buffer := []
    stored := none }

/-- C2 witness: with a 10 ms interval, the signal at `t = 3` (delta 3 < 10)
is dropped without touching the state. -/
theorem throttle_fixed_interval_holds :
    (0 : ℚ) < rCfg.interval ∧ loopStep rCfg rLs 3 = rLs :=
  ⟨by norm_num [rCfg], (throttle_fixed_interval rCfg (by norm_num [rCfg])).2.1
      rLs 3 (by norm_num [rCfg, rLs])⟩

/-- C3 witness: a first tick (no previous dimensions) on a 2×2 grid. -/
theorem resize_renormalizes_holds :
    ((0 : ℚ) < 10 ∧ (10 : ℚ) ≤ 100 - 0) ∧
    ((resizeBuffer rCfg rLs).2.length = 4 ∧
      (loopStep rCfg rLs 100).buffer = List.replicate 4 (defaultCellOf rCfg.style)) := by
  have h := resize_renormalizes rCfg rLs 100 (by norm_num [rCfg, rLs]) (by simp [rCfg, rLs])
  refine ⟨⟨by norm_num, by norm_num⟩, ?_, ?_⟩
  · rw [h.1]
    rfl
  · rw [h.2.2.2]
    rfl

/-- C9: an accepted tick snapshots the context before the time/frame
advance: the context's `frame` is the counter before the increment and its
`time` the value recorded by the previous accepted tick (or the
boot/restored value), that snapshot is exactly what the `pre`/`main`/`post`
phases receive, while the state persisted on the same tick already holds
the incremented frame and the newly sampled time. -/
theorem context_snapshot_precedes_advance (cfg : LoopCfg) (ls : LoopState)
    (t : ℚ) (haccept : cfg.interval ≤ t - ls.timeSample) :
    (mkContext ls.state cfg.cols cfg.rows).frame = ls.state.frame ∧
    (mkContext ls.state cfg.cols cfg.rows).time = ls.state.time ∧
    (loopStep cfg ls t).state.frame = ls.state.frame + 1 ∧
    (loopStep cfg ls t).state.time = t + cfg.timeOffset ∧
    (loopStep cfg ls t).stored = some (loopStep cfg ls t).state ∧
    (loopStep cfg ls t).buffer =
      runPhase cfg.program.post (mkContext ls.state cfg.cols cfg.rows)
        (runMain cfg.program.main (mkContext ls.state cfg.cols cfg.rows)
          (runPhase cfg.program.pre (mkContext ls.state cfg.cols cfg.rows)
            (resizeBuffer cfg ls).2)) := by
  rw [loopStep_accept cfg ls t haccept]
  exact ⟨rfl, rfl, rfl, rfl, rfl, rfl⟩

/-- The example program of the spec: `main` returns "X" at `coord.index == 1`
and " " elsewhere, with no `pre`/`post`. -/
def exProgram : ProgramM :=
  { pre := none
    main := some fun c _ _ => .prim (some (if c.index = 1 then "X" else " "))
    post := none }

/-- Loop configuration for the example: 3×1 grid, no caller styles. -/
def exCfg : LoopCfg :=
  { interval := 10
    timeOffset := 0
    style := ⟨none, none, none⟩
    cols := 3
    rows := 1
    program := exProgram }

/-- Boot state for the example run. -/
def exLs : LoopState :=
  { timeSample := 0
    state := ⟨0, 0, 0, 30⟩
    dims := none
    buffer := []
    stored := none }

/-- C1: per-cell result handling of an accepted tick. An object result is
spread over the old slot (present fields overwrite, absent fields keep the
old value), a bare character overwrites only `char` keeping the style
fields, a `char` that ends up `undefined`/`null` is forced to a single
space, and each visited cell stores exactly this handled value. On the 3×1
example grid whose `main` returns "X" at index 1 and " " elsewhere, one
tick yields buffer characters " ", "X", " " with default style. -/
theorem main_result_merge :
    (∀ (old : Obj) (p : PCell), p.char.getD old.char ≠ none →
        applyMainResult old (.obj p) =
          ⟨p.char.getD old.char, p.color.getD old.color,
           p.backgroundColor.getD old.backgroundColor,
           p.fontWeight.getD old.fontWeight⟩) ∧
    (∀ (old : Obj) (p : PCell), p.char.getD old.char = none →
        applyMainResult old (.obj p) =
          ⟨some " ", p.color.getD old.color,
           p.backgroundColor.getD old.backgroundColor,
           p.fontWeight.getD old.fontWeight⟩) ∧
    (∀ (old : Obj) (c : String),
        applyMainResult old (.prim (some c)) =
          ⟨some c, old.color, old.backgroundColor, old.fontWeight⟩) ∧
    (∀ (old : Obj),
        applyMainResult old (.prim none) =
          ⟨some " ", old.color, old.backgroundColor, old.fontWeight⟩) ∧
    (∀ (main : Coord → Ctx → List Obj → MainOut) (ctx : Ctx)
        (buf : List Obj) (c : Coord), c.index < buf.length →
        (mainCellStep main ctx buf c).get? c.index =
          some (applyMainResult (buf.getD c.index Obj.empty) (main c ctx buf))) ∧
    (loopStep exCfg exLs 100).buffer =
      [⟨some " ", none, none, none⟩, ⟨some "X", none, none, none⟩,
       ⟨some " ", none, none, none⟩] := by
  refine ⟨?_, ?_, ?_, ?_, ?_, ?_⟩
  · intro old p h
    unfold applyMainResult spreadCell
    simp only [if_neg h]
  · intro old p h
    unfold applyMainResult spreadCell
    simp only [if_pos h]
  · intro old c
    rfl
  · intro old
    rfl
  · intro main ctx buf c h
    unfold mainCellStep
    rw [List.get?_set_eq_of_lt]
    simpa using h
  · rw [loopStep_accept exCfg exLs 100 (by norm_num [exCfg, exLs])]
    rfl

/-- C1 witness: an object result with a new character and background keeps
the old color; the per-cell step at index 0 of a one-cell buffer stores the
handled value. -/
theorem main_result_merge_holds :
    (some (some "Z") : Option (Option String)).getD (some " ") ≠ none ∧
    applyMainResult ⟨some " ", some "red", none, none⟩
        (.obj ⟨some (some "Z"), none, some (some "blue"), none⟩) =
      ⟨some "Z", some "red", some "blue", none⟩ ∧
    (0 < 1 ∧
      (mainCellStep (fun _ _ _ => .prim (some "Q")) ⟨0, 0, 1, 1⟩
          [Obj.empty] ⟨0, 0, 0⟩).get? 0 =
        some (applyMainResult Obj.empty (.prim (some "Q")))) := by
  refine ⟨by decide, ?_, by decide, ?_⟩
  · exact main_result_merge.1 ⟨some " ", some "red", none, none⟩
      ⟨some (some "Z"), none, some (some "blue"), none⟩ (by decide)
  · exact main_result_merge.2.2.2.2.1 (fun _ _ _ => .prim (some "Q"))
      ⟨0, 0, 1, 1⟩ [Obj.empty] ⟨0, 0, 0⟩ (by decide)

/-- C9 witness: the first accepted tick increments the persisted frame
counter from 0 to 1 while the snapshot kept frame 0. -/
theorem context_snapshot_precedes_advance_holds :
    ((10 : ℚ) ≤ 100 - 0) ∧
    (mkContext rLs.state rCfg.cols rCfg.rows).frame = 0 ∧
    (loopStep rCfg rLs 100).state.frame = 1 := by
  have h := context_snapshot_precedes_advance rCfg rLs 100 (by norm_num [rCfg, rLs])
  refine ⟨by norm_num, ?_, ?_⟩
  · rw [h.1]
    rfl
  · rw [h.2.2.1]
    rfl

/-! ## Interval computation from the fps setting (`index.ts` lines 30-40,
175-191)

The runner merges `defaultSettings` (with `fps: 30`) and the caller
settings into `mergedSettings`, but the loop computes
`const interval = 1000 / settings.fps` from the RAW caller settings. JS
division `1000 / undefined` is `NaN` and `1000 / 0` is `+Infinity`, so the
guard `delta < interval` behaves pathologically for those inputs. The
embedding keeps the three relevant JS number classes. -/

/-- The `fps` default of `defaultSettings` in `index.ts`. -/
def defaultFps : ℚ := 30

/-- JS number as produced by `1000 / settings.fps`: a finite value,
`+Infinity` (division of the positive literal 1000 by zero), or `NaN`
(division by the `undefined` of an absent setting). -/
inductive JSNum where
  | num (q : ℚ)
  | posInf
  | nan
deriving DecidableEq, Repr

/-- Embedding of `const interval = 1000 / settings.fps` over the raw
caller-supplied `fps` (absent modelled as `none`). -/
def intervalOf (fps : Option ℚ) : JSNum :=
  match fps with
  | none => .nan
  | some q => if q = 0 then .posInf else .num (1000 / q)

/-- JS `<` on the numbers that can appear as `delta < interval`: any
comparison against `NaN` is false, and a finite delta is below
`+Infinity`. -/
def jsLtNum : JSNum → JSNum → Bool
  | .nan, _ => false
  | _, .nan => false
  | .num a, .num b => decide (a < b)
  | .num _, .posInf => true
  | .posInf, _ => false

/-- Embedding of the skip guard `if (delta < interval)` for a finite
delta. -/
def skipsSignal (interval : JSNum) (delta : ℚ) : Bool :=
  jsLtNum (.num delta) interval

/-- C4 (refuted: the code diverges from the claim): the loop computes its
interval from the raw caller `fps`, not from the merged defaults. With
`fps` absent the interval is `NaN`, so no signal is ever skipped (even a
1 ms delta is accepted, which the claimed default interval `1000/30` would
skip); with `fps = 0` the interval is `+Infinity`, so every signal is
skipped forever (even a 1000 ms delta, which the default interval would
accept). Neither behaves like the claimed default target rate. -/
theorem interval_ignores_default_fps :
    intervalOf none = .nan ∧
    intervalOf (some 0) = .posInf ∧
    intervalOf (some defaultFps) = .num (1000 / 30) ∧
    skipsSignal (intervalOf none) 1 = false ∧
    skipsSignal (.num (1000 / defaultFps)) 1 = true ∧
    skipsSignal (intervalOf (some 0)) 1000 = true ∧
    skipsSignal (.num (1000 / defaultFps)) 1000 = false := by
  refine ⟨rfl, rfl, rfl, rfl, ?_, rfl, ?_⟩
  · unfold skipsSignal jsLtNum defaultFps
    norm_num
  · unfold skipsSignal jsLtNum defaultFps
    norm_num

/-! ## Metrics probe (`calcMetrics`, `index.ts` lines 368-417)

The surface measurement (computed style and span/canvas text measurement)
is embedded as an input record; `calcMetrics` turns it into the metrics
object. The `_update` member computes `tmp = calcMetrics(el)` but the
copy-back inside its `for (var k in tmp)` loop is commented out in the
source, so the metrics fields are left untouched. -/

/-- Raw data `calcMetrics` reads from the surface: computed font family,
font size and line height, plus the measured pixel width of 50 "X"
characters. -/
structure SurfaceMeasure where
  fontFamily : String
  fontSize : ℚ
  lineHeight : ℚ
  xWidth50 : ℚ
deriving DecidableEq, Repr

/-- The metrics object (without its `_update` closure). -/
structure MetricsM where
  aspect : ℚ
  cellWidth : ℚ
  lineHeight : ℚ
  fontFamily : String
  fontSize : ℚ
deriving DecidableEq, Repr

/-- Embedding of `calcMetrics`: `cellWidth` is the 50-X measurement divided
by 50, `aspect = cellWidth / lineHeight`, the rest is copied from the
style. -/
def calcMetrics (m : SurfaceMeasure) : MetricsM :=
  let cellWidth := m.xWidth50 / 50
  ⟨cellWidth / m.lineHeight, cellWidth, m.lineHeight, m.fontFamily, m.fontSize⟩

/-- Embedding of the `_update` member: it recomputes `tmp
= calcMetrics(el)` against the current surface, but the loop that would
copy `tmp`'s fields back is commented out, so the object is returned
unchanged. -/
def metricsUpdate (current : MetricsM) (surface : SurfaceMeasure) : MetricsM :=
  let _tmp := calcMetrics surface
  current

/-- C8 (refuted: the code diverges from the claim): `_update` never
changes any field, so after a refresh against a surface whose measurement
changed, the metrics do not equal a fresh measurement of that surface. -/
theorem metrics_update_is_noop :
    (∀ (m : MetricsM) (s : SurfaceMeasure), metricsUpdate m s = m) ∧
    metricsUpdate (calcMetrics ⟨"monospace", 12, 20, 500⟩)
        ⟨"monospace", 16, 24, 600⟩ ≠
      calcMetrics ⟨"monospace", 16, 24, 600⟩ := by
  refine ⟨fun m s => rfl, ?_⟩
  unfold metricsUpdate calcMetrics
  intro h
  have := congrArg MetricsM.fontSize h
  norm_num at this

end PlayCore
